import Mathlib

/-!
Verification of the openaudible-audiobookshelf-watcher repository.

The development shallowly embeds the processing core of `src/src/app.ts`
(template expansion, copy planning, the copy executor, `ProcessBook`,
`ProcessBooks`, the watch handler) and, for the debounce behaviour, the
event loop of the variant source file `src/unnamed/part_002`.

Strings are Lean `String`s for filesystem paths and `List Char` where the
code scans character by character (the template regex).  File sizes are
`Nat` (the code uses non-negative BigInt byte counts).  The filesystem is a
map from path to optional size together with a set of existing directories
and two static fault oracles standing for the exceptions `mkdirSync` and
`copyFile` may throw.  `path.join` is modelled as separator concatenation
(no `..` normalisation is exercised by any claim).
-/

namespace Watcher

/-- A character matched by the regex class `[\w_]` of `/\{[\w_]+\}/g`
(app.ts line 90): ASCII letters, digits and underscore. -/
def isWordChar (c : Char) : Bool := c.isAlphanum || c = '_'

/-- Record keys and placeholder names, character by character. -/
abbrev FName := List Char

/-- A scalar JSON field value of a manifest record. -/
inductive JValue where
  | str (s : List Char)
  | num (n : Int)
deriving DecidableEq, Repr

/-- JS `String(v)` on a defined field value. -/
def jstr : JValue → List Char
  | .str s => s
  | .num n => (toString n).toList

/-- JS `String(x)` where `x` may be `undefined`. -/
def jstrOpt : Option JValue → List Char
  | some v => jstr v
  | none => "undefined".toList

/-- The scalar fields of one record, in JS object key (insertion) order:
`Object.keys` enumerates the keys in this order.  The `files` array is kept
apart (see `Book`); no claim mentions it in a template. -/
abbrev RecFields := List (FName × JValue)

/-- JS property access `book[k]`. -/
def lookupField : RecFields → FName → Option JValue
  | [], _ => none
  | (k, v) :: r, n => if k = n then some v else lookupField r n

/-- One piece of the template after the scan for `/\{[\w_]+\}/g`: a literal
character, or one placeholder occurrence with its name. -/
inductive Chunk where
  | lit (c : Char)
  | hole (n : FName)
deriving DecidableEq, Repr

/-- The scan of the template for `/\{[\w_]+\}/g` (app.ts line 90), with a
step counter for structural termination.  A match is `{`, a maximal
non-empty run of word characters, `}`; on a failed match attempt the scan
advances one character, as the JS global regex does.  Backtracking inside
`[\w_]+` cannot help (a shorter run is followed by a word character, never
by `}`), so the maximal run is the only candidate.  Every recursive call
strictly shortens the list, so a counter starting at the list's length is
never exhausted. -/
def scanTAux : Nat → List Char → List Chunk
  | _, [] => []
  | 0, _ :: _ => []
  | fuel + 1, c :: rest =>
    if c = '{' then
      match rest.dropWhile isWordChar with
      | '}' :: r2 =>
        if rest.takeWhile isWordChar = [] then
          Chunk.lit '{' :: scanTAux fuel rest
        else Chunk.hole (rest.takeWhile isWordChar) :: scanTAux fuel r2
      | _ => Chunk.lit '{' :: scanTAux fuel rest
    else Chunk.lit c :: scanTAux fuel rest

/-- The template scan (app.ts line 90). -/
def scanT (l : List Char) : List Chunk := scanTAux l.length l

/-- The placeholder names, in template order (`matchAll` then stripping the
braces, app.ts lines 90-92). -/
def holesOf (cs : List Chunk) : List FName :=
  cs.filterMap fun c => match c with | .hole n => some n | .lit _ => none

/-- `util.format` applied to the template with every match replaced by `%s`
(app.ts line 100), for templates whose literal text contains no `%`.
Values fill the `%s` slots left to right; a slot without a value is left as
the literal text `%s`, and surplus values are appended, each preceded by a
space (Node `util.format` semantics). -/
def fill : List Chunk → List (List Char) → List Char
  | [], vs => vs.foldr (fun v acc => ' ' :: (v ++ acc)) []
  | .lit c :: rest, vs => c :: fill rest vs
  | .hole _ :: rest, [] => '%' :: 's' :: fill rest []
  | .hole _ :: rest, v :: vs => v ++ fill rest vs

/-- The values fed to `util.format` (app.ts lines 94-96): the record's keys
in storage order, narrowed to those requested by the template, each turned
into its string form. -/
def valuesFor (r : RecFields) (vars : List FName) : List (List Char) :=
  ((r.map Prod.fst).filter fun k => decide (k ∈ vars)).map
    fun k => jstrOpt (lookupField r k)

/-- The template expansion of app.ts lines 89-100 (without the final
`path.join` against the output root). -/
def resolve (t : List Char) (r : RecFields) : List Char :=
  fill (scanT t) (valuesFor r (holesOf (scanT t)))

/-- Substitution of each placeholder occurrence by the value for its own
name.  Used as the specification-side definition of template resolution. -/
def render (f : FName → List Char) : List Chunk → List Char
  | [] => []
  | .lit c :: rest => c :: render f rest
  | .hole n :: rest => f n ++ render f rest

/-- Modelled from the spec (section 4.1): each `{name}` occurrence is
replaced, in position, by the string form of record field `name`, a missing
field yielding the marker `"undefined"`; literal text is preserved. -/
def resolveSpec (t : List Char) (r : RecFields) : List Char :=
  render (fun n => jstrOpt (lookupField r n)) (scanT t)

/-! ## Filesystem, copy planning and the copy executor -/

/-- One entry of a record's `files` array (the `type` field is never read
by the processing code). -/
structure BFile where
  path : String
  kind : String
deriving DecidableEq, Repr

/-- One manifest record as `ProcessBook` consumes it: its scalar fields in
JS object key order, and its `files` array. -/
structure Book where
  fields : RecFields
  files : List BFile
deriving DecidableEq, Repr

/-- The already-validated configuration values `ProcessBook` reads. -/
structure Arguments where
  input : String
  output : String
  template : String
deriving DecidableEq, Repr

/-- The state of the machine the program acts on: file sizes (`none` when
the file does not exist), existing directories, and two static fault
oracles giving the paths at which `mkdirSync` respectively `copyFile`
would throw. -/
structure World where
  sizes : String → Option Nat
  dirs : String → Bool
  mkdirErr : String → Bool
  copyErr : String → String → Bool

/-- The size map after a completed `copyFile src dst`: the destination's
size becomes the source's size. -/
def setSize (w : World) (p : String) (n : Nat) : World :=
  { w with sizes := fun q => if q = p then some n else w.sizes q }

/-- The directory set after `mkdirSync p recursive`. -/
def addDir (w : World) (p : String) : World :=
  { w with dirs := fun q => if q = p then true else w.dirs q }

/-- `${book.title_short}` as interpolated into every log and summary
message. -/
def tshort (b : Book) : String :=
  String.mk (jstrOpt (lookupField b.fields "title_short".toList))

/-- The per-record summary returned on the happy path
(app.ts line 160). -/
def successMsg (b : Book) : String :=
  "✅ " ++ tshort b ++ ": processed successfully"

/-- The per-record summary returned by the outer catch
(app.ts line 163). -/
def errMsg (b : Book) : String :=
  "❌ " ++ tshort b ++ ": Error processing book"

/-- `path.basename`, for POSIX paths: the part after the last `/` (the
manifest's relative file paths never end in a separator). -/
def basename (s : String) : String :=
  String.mk ((s.toList.reverse.takeWhile fun c => !(c = '/')).reverse)

/-- The output directory of one record:
`path.join(argv.output, util.format(..., ...values))` (app.ts 98-101),
with `path.join` modelled as `/`-concatenation. -/
def outputPath (argv : Arguments) (b : Book) : String :=
  argv.output ++ "/" ++ String.mk (resolve argv.template.toList b.fields)

/-- The source path of one media file:
`path.join(argv.input, 'books', f.path)` (app.ts line 110). -/
def srcPath (argv : Arguments) (f : BFile) : String :=
  argv.input ++ "/books/" ++ f.path

/-- The destination path of one media file:
`path.join(outputPath, path.basename(f.path))` (app.ts line 111). -/
def dstPath (argv : Arguments) (b : Book) (f : BFile) : String :=
  outputPath argv b ++ "/" ++ basename f.path

/-- One planned copy, named as the object literal of app.ts 109-112. -/
structure CopyTask where
  input : String
  output : String
deriving DecidableEq, Repr

/-- The record's copy set (app.ts 106-113): its audio files, each mapped
to source and destination. -/
def tasksOf (argv : Arguments) (b : Book) : List CopyTask :=
  (b.files.filter fun f => f.kind == "audio").map
    fun f => ⟨srcPath argv f, dstPath argv b f⟩

/-- The terminal state of one copy task; each constructor corresponds to
one log line of app.ts 115-158 (`Copied`, `Skipped copying`,
`Copy task failed`). -/
inductive Outcome where
  | copied
  | skipped
  | failed
deriving DecidableEq, Repr

/-- One copy task as executed by the body of app.ts 115-158: missing
source throws `File not found`, caught by the per-task catch; an existing
destination of equal size is skipped; otherwise `copyFile` runs (a thrown
`copyFile` is also caught per task, the size map then left unchanged). -/
def executeTask (w : World) (t : CopyTask) : Outcome × World :=
  match w.sizes t.input with
  | none => (.failed, w)
  | some isz =>
    match w.sizes t.output with
    | some osz =>
      if isz = osz then (.skipped, w)
      else if w.copyErr t.input t.output then (.failed, w)
      else (.copied, setSize w t.output isz)
    | none =>
      if w.copyErr t.input t.output then (.failed, w)
      else (.copied, setSize w t.output isz)

/-- The record's copy promises joined by `Promise.all` (app.ts 115-159),
as one admissible interleaving of the cooperative single-threaded
scheduler: the tasks in order. -/
def runTasks (w : World) : List CopyTask → List Outcome × World
  | [] => ([], w)
  | t :: ts =>
    let r := executeTask w t
    let rs := runTasks r.2 ts
    (r.1 :: rs.1, rs.2)

/-- Whether app.ts 103-104 throws for this record: the output directory is
absent and `mkdirSync` faults there. -/
def planFails (w : World) (argv : Arguments) (b : Book) : Bool :=
  !w.dirs (outputPath argv b) && w.mkdirErr (outputPath argv b)

/-- The effect of `existsSync(outputPath) === false && mkdirSync(...)`
(app.ts 103-104) when it does not throw: the directory exists
afterwards. -/
def ensureDir (w : World) (p : String) : World :=
  if w.dirs p then w else addDir w p

/-- `ProcessBook(argv)(book)` (app.ts 86-168): plan the output directory
and copy set, create the directory if absent (the only planning step that
can throw), run every copy task, and return the record summary; the outer
catch converts a planning exception into the failure summary.  The result
is the summary message, the per-task outcomes (the per-task log lines) and
the final machine state. -/
def processBook (w : World) (argv : Arguments) (b : Book) :
    (String × List Outcome) × World :=
  if planFails w argv b then ((errMsg b, []), w)
  else
    let r := runTasks (ensureDir w (outputPath argv b)) (tasksOf argv b)
    ((successMsg b, r.1), r.2)

/-- The fan-out of `ProcessBooks` (app.ts 177) over the parsed records, as
the sequential interleaving of the per-record work. -/
def processBooks (w : World) (argv : Arguments) :
    List Book → List (String × List Outcome) × World
  | [] => ([], w)
  | b :: bs =>
    let r := processBook w argv b
    let rs := processBooks r.2 argv bs
    (r.1 :: rs.1, rs.2)

/-- The copy tasks of a whole pass, in record order. -/
def allTasks (argv : Arguments) : List Book → List CopyTask
  | [] => []
  | b :: bs => tasksOf argv b ++ allTasks argv bs

/-- `ProcessBooks` (app.ts 170-178): `JSON.parse` of the manifest, then the
fan-out.  The function contains no try/catch: a parse failure propagates to
the caller. -/
def processBooksRun (w : World) (argv : Arguments)
    (parsed : Except String (List Book)) :
    Except String (List (String × List Outcome) × World) :=
  match parsed with
  | .error e => .error e
  | .ok books => .ok (processBooks w argv books)

/-- The watch handler `watchThis` (app.ts 213-221): it logs and then runs
`ProcessBooks`, with no try/catch of its own, so whatever `ProcessBooks`
throws escapes the handler. -/
def watchThisHandler (w : World) (argv : Arguments)
    (parsed : Except String (List Book)) :
    Except String (List (String × List Outcome) × World) :=
  processBooksRun w argv parsed

/-! ## The watch dispatch of src/src/app.ts -/

/-- Observable state of the watch dispatch: how many processor passes are
currently running and how many were ever started. -/
structure WatchSt where
  running : Nat
  started : Nat
deriving DecidableEq, Repr

/-- Events at the dispatch level: the watcher delivers a change signal, or
a running pass completes. -/
inductive WEv where
  | change
  | finish
deriving DecidableEq, Repr

/-- The dispatch of app.ts 213-222: `watchDir.on('all', watchThis)` calls
the handler once per delivered event and does not await it; the handler
immediately starts a `ProcessBooks` pass.  No flag is consulted or set, so
a change signal always starts one more pass. -/
def watchStep (s : WatchSt) : WEv → WatchSt
  | .change => { running := s.running + 1, started := s.started + 1 }
  | .finish => { s with running := s.running - 1 }

/-- The dispatch over a sequence of events. -/
def watchRun (s : WatchSt) : List WEv → WatchSt
  | [] => s
  | e :: evs => watchRun (watchStep s e) evs

/-- The dispatch state at startup: no pass running. -/
def watchStart : WatchSt := ⟨0, 0⟩

/-! ## The debounce loop of src/unnamed/part_002 -/

/-- Observable state of the part_002 event loop: whether `timeoutRef` is
set, whether a `ProcessBooks` pass is running, and how many passes were
ever started.  `timeoutRef` is set by the first change signal, stays set
through the scheduled pass, and is cleared only after that pass
completes. -/
structure DebSt where
  timeoutSet : Bool
  processing : Bool
  passes : Nat
deriving DecidableEq, Repr

/-- Events of the part_002 loop: a change signal, the debounce timer
firing, and the completion of a pass. -/
inductive DEv where
  | change
  | fire
  | done
deriving DecidableEq, Repr

/-- The loop body of part_002 lines 234-248: a change signal schedules the
timer only when `timeoutRef` is unset (`if (!timeoutRef)`); the timer
firing starts one pass; on completion `clearTimeout` runs and `timeoutRef`
is reset. -/
def debStep (s : DebSt) : DEv → DebSt
  | .change => if s.timeoutSet then s else { s with timeoutSet := true }
  | .fire =>
    if s.timeoutSet && !s.processing then
      { s with processing := true, passes := s.passes + 1 }
    else s
  | .done =>
    if s.processing then
      { timeoutSet := false, processing := false, passes := s.passes }
    else s

/-- The part_002 loop over a sequence of events. -/
def debRun (s : DebSt) : List DEv → DebSt
  | [] => s
  | e :: evs => debRun (debStep s e) evs

/-- The part_002 loop in its idle state. -/
def debIdle : DebSt := ⟨false, false, 0⟩

/-! ## Concrete fixtures used by witnesses and counterexamples -/

/-- A machine holding exactly one file, the 5-byte source `in/books/a.mp3`,
with no directories and no faults. -/
def exW3 : World :=
  ⟨fun p => if p = "in/books/a.mp3" then some 5 else none,
   fun _ => false, fun _ => false, fun _ _ => false⟩

/-- The copy task for that file. -/
def exT3 : CopyTask := ⟨"in/books/a.mp3", "out/A/a.mp3"⟩

/-- Configuration shared by the concrete runs: input root `in`, output
root `out`, template `{author}`. -/
def exArgvA : Arguments := ⟨"in", "out", "{author}"⟩

/-- A record with two audio files whose relative paths differ but share
the basename `x.mp3`, so both copy tasks target the same destination. -/
def exB7 : Book :=
  ⟨[("author".toList, JValue.str "X".toList)],
   [⟨"a/x.mp3", "audio"⟩, ⟨"b/x.mp3", "audio"⟩]⟩

/-- Sources of 1 and 2 bytes for the two colliding files; nothing else. -/
def exW7 : World :=
  ⟨fun p => if p = "in/books/a/x.mp3" then some 1
    else if p = "in/books/b/x.mp3" then some 2 else none,
   fun _ => false, fun _ => false, fun _ _ => false⟩

/-- A record with one audio file. -/
def exB7w : Book :=
  ⟨[("author".toList, JValue.str "W".toList)], [⟨"w.mp3", "audio"⟩]⟩

/-- A 3-byte source for that file; nothing else. -/
def exW7w : World :=
  ⟨fun p => if p = "in/books/w.mp3" then some 3 else none,
   fun _ => false, fun _ => false, fun _ _ => false⟩

/-- A record with two audio files, `m1.mp3` and `m2.mp3`. -/
def exB8 : Book :=
  ⟨[("author".toList, JValue.str "Y".toList),
    ("title_short".toList, JValue.str "YB".toList)],
   [⟨"m1.mp3", "audio"⟩, ⟨"m2.mp3", "audio"⟩]⟩

/-- Only the second source exists (4 bytes); no faults. -/
def exW8 : World :=
  ⟨fun p => if p = "in/books/m2.mp3" then some 4 else none,
   fun _ => false, fun _ => false, fun _ _ => false⟩

/-- A record whose output directory is `out/Z`. -/
def exB9 : Book := ⟨[("author".toList, JValue.str "Z".toList)], []⟩

/-- A sibling record with one audio file. -/
def exB9s : Book :=
  ⟨[("author".toList, JValue.str "S".toList)], [⟨"s.mp3", "audio"⟩]⟩

/-- `mkdirSync` faults at `out/Z` (and only there); the sibling's source
exists. -/
def exW9 : World :=
  ⟨fun p => if p = "in/books/s.mp3" then some 6 else none,
   fun _ => false, fun p => p == "out/Z", fun _ _ => false⟩

/-- A record with one audio file whose source will be absent. -/
def exB10 : Book :=
  ⟨[("author".toList, JValue.str "Q".toList),
    ("title_short".toList, JValue.str "QB".toList)],
   [⟨"q.mp3", "audio"⟩]⟩

/-- An empty machine: no files, no directories, no faults. -/
def exW10 : World :=
  ⟨fun _ => none, fun _ => false, fun _ => false, fun _ _ => false⟩

/-! ## Template engine lemmas -/

theorem lookupField_mem {r : RecFields} {n : FName} {v : JValue}
    (h : lookupField r n = some v) : n ∈ r.map Prod.fst := by
  induction r with
  | nil => exact absurd h (by rw [lookupField]; exact Option.noConfusion)
  | cons kv r ih =>
    obtain ⟨k, v2⟩ := kv
    rw [List.map_cons]
    by_cases hk : k = n
    · exact hk ▸ List.mem_cons_self _ _
    · rw [lookupField, if_neg hk] at h
      exact List.mem_cons_of_mem _ (ih h)

theorem filter_eq_single {l : List FName} {a : FName}
    (hnd : l.Nodup) (ha : a ∈ l) :
    l.filter (fun k => decide (k = a)) = [a] := by
  induction l with
  | nil => exact absurd ha (List.not_mem_nil a)
  | cons b l ih =>
    have hb := List.nodup_cons.mp hnd
    rw [List.filter_cons]
    by_cases hba : b = a
    · rw [if_pos (by simp [hba])]
      have hfl : l.filter (fun k => decide (k = a)) = [] := by
        rw [List.filter_eq_nil_iff]
        intro k hk
        simp only [decide_eq_true_eq]
        intro hka
        exact hb.1 (by rw [hba, ← hka]; exact hk)
      rw [hfl, hba]
    · rw [if_neg (by simp [hba])]
      have hal : a ∈ l := by
        rcases List.mem_cons.mp ha with h | h
        · exact absurd h.symm hba
        · exact h
      exact ih hb.2 hal

/-- Filling the `%s` slots with exactly the per-name values, one per
placeholder occurrence in template order, is substitution by name. -/
theorem fill_holesOf_map (f : FName → List Char) (cs : List Chunk) :
    fill cs ((holesOf cs).map f) = render f cs := by
  induction cs with
  | nil => rfl
  | cons c cs ih =>
    cases c with
    | lit ch => simpa [holesOf, fill, render, List.filterMap_cons] using ih
    | hole n => simpa [holesOf, fill, render, List.filterMap_cons] using ih

/-! ## Executor lemmas -/

@[simp] theorem setSize_sizes (w : World) (p : String) (n : Nat) (q : String) :
    (setSize w p n).sizes q = if q = p then some n else w.sizes q := rfl

@[simp] theorem setSize_dirs (w : World) (p : String) (n : Nat) :
    (setSize w p n).dirs = w.dirs := rfl

@[simp] theorem setSize_mkdirErr (w : World) (p : String) (n : Nat) :
    (setSize w p n).mkdirErr = w.mkdirErr := rfl

@[simp] theorem setSize_copyErr (w : World) (p : String) (n : Nat) :
    (setSize w p n).copyErr = w.copyErr := rfl

@[simp] theorem addDir_sizes (w : World) (p : String) :
    (addDir w p).sizes = w.sizes := rfl

@[simp] theorem addDir_mkdirErr (w : World) (p : String) :
    (addDir w p).mkdirErr = w.mkdirErr := rfl

@[simp] theorem addDir_copyErr (w : World) (p : String) :
    (addDir w p).copyErr = w.copyErr := rfl

@[simp] theorem ensureDir_sizes (w : World) (p : String) :
    (ensureDir w p).sizes = w.sizes := by
  unfold ensureDir
  split <;> rfl

@[simp] theorem ensureDir_mkdirErr (w : World) (p : String) :
    (ensureDir w p).mkdirErr = w.mkdirErr := by
  unfold ensureDir
  split <;> rfl

@[simp] theorem ensureDir_copyErr (w : World) (p : String) :
    (ensureDir w p).copyErr = w.copyErr := by
  unfold ensureDir
  split <;> rfl

theorem ensureDir_dirs_self (w : World) (p : String) :
    (ensureDir w p).dirs p = true := by
  unfold ensureDir
  split
  · assumption
  · simp [addDir]

theorem ensureDir_dirs_mono (w : World) (p q : String)
    (h : w.dirs q = true) : (ensureDir w p).dirs q = true := by
  unfold ensureDir
  split
  · exact h
  · simp [addDir, h]

/-- The executor either leaves the machine unchanged or writes exactly its
destination. -/
theorem executeTask_world (w : World) (t : CopyTask) :
    (executeTask w t).2 = w ∨
    ∃ n, (executeTask w t).2 = setSize w t.output n := by
  unfold executeTask
  cases w.sizes t.input with
  | none => exact Or.inl rfl
  | some isz =>
    cases w.sizes t.output with
    | some osz =>
      by_cases he : isz = osz
      · simp [he]
      · by_cases hc : w.copyErr t.input t.output = true
        · simp [he, hc]
        · simp only [Bool.not_eq_true] at hc
          simp only [he, if_false, hc]
          exact Or.inr ⟨isz, rfl⟩
    | none =>
      by_cases hc : w.copyErr t.input t.output = true
      · simp [hc]
      · simp only [Bool.not_eq_true] at hc
        simp only [hc]
        exact Or.inr ⟨isz, rfl⟩

theorem executeTask_sizes_ne (w : World) (t : CopyTask) {p : String}
    (hp : p ≠ t.output) : ((executeTask w t).2).sizes p = w.sizes p := by
  rcases executeTask_world w t with h | ⟨n, h⟩ <;> rw [h] <;> simp [hp]

theorem executeTask_dirs (w : World) (t : CopyTask) :
    ((executeTask w t).2).dirs = w.dirs := by
  rcases executeTask_world w t with h | ⟨n, h⟩ <;> rw [h] <;> simp

theorem executeTask_mkdirErr (w : World) (t : CopyTask) :
    ((executeTask w t).2).mkdirErr = w.mkdirErr := by
  rcases executeTask_world w t with h | ⟨n, h⟩ <;> rw [h] <;> simp

theorem executeTask_copyErr (w : World) (t : CopyTask) :
    ((executeTask w t).2).copyErr = w.copyErr := by
  rcases executeTask_world w t with h | ⟨n, h⟩ <;> rw [h] <;> simp

theorem runTasks_cons (w : World) (t : CopyTask) (ts : List CopyTask) :
    runTasks w (t :: ts) =
      ((executeTask w t).1 :: (runTasks (executeTask w t).2 ts).1,
       (runTasks (executeTask w t).2 ts).2) := rfl

theorem runTasks_append (w : World) (ts1 ts2 : List CopyTask) :
    runTasks w (ts1 ++ ts2) =
      ((runTasks w ts1).1 ++ (runTasks (runTasks w ts1).2 ts2).1,
       (runTasks (runTasks w ts1).2 ts2).2) := by
  induction ts1 generalizing w with
  | nil => rfl
  | cons t ts1 ih =>
    rw [List.cons_append, runTasks_cons, runTasks_cons, ih]
    rfl

theorem runTasks_sizes_ne (ts : List CopyTask) (w : World) {p : String}
    (hp : ∀ t ∈ ts, p ≠ t.output) :
    ((runTasks w ts).2).sizes p = w.sizes p := by
  induction ts generalizing w with
  | nil => rfl
  | cons t ts ih =>
    rw [runTasks_cons]
    dsimp only
    rw [ih _ fun t2 ht2 => hp t2 (List.mem_cons_of_mem _ ht2),
      executeTask_sizes_ne w t (hp t (List.mem_cons_self _ _))]

theorem runTasks_dirs (ts : List CopyTask) (w : World) :
    ((runTasks w ts).2).dirs = w.dirs := by
  induction ts generalizing w with
  | nil => rfl
  | cons t ts ih =>
    rw [runTasks_cons]
    dsimp only
    rw [ih, executeTask_dirs]

theorem runTasks_mkdirErr (ts : List CopyTask) (w : World) :
    ((runTasks w ts).2).mkdirErr = w.mkdirErr := by
  induction ts generalizing w with
  | nil => rfl
  | cons t ts ih =>
    rw [runTasks_cons]
    dsimp only
    rw [ih, executeTask_mkdirErr]

theorem runTasks_copyErr (ts : List CopyTask) (w : World) :
    ((runTasks w ts).2).copyErr = w.copyErr := by
  induction ts generalizing w with
  | nil => rfl
  | cons t ts ih =>
    rw [runTasks_cons]
    dsimp only
    rw [ih, executeTask_copyErr]

/-- The executor never reads the directory set. -/
theorem executeTask_ignores_dirs (w : World) (d : String → Bool)
    (t : CopyTask) :
    executeTask { w with dirs := d } t =
      ((executeTask w t).1, { (executeTask w t).2 with dirs := d }) := by
  unfold executeTask
  dsimp only
  cases w.sizes t.input with
  | none => rfl
  | some isz =>
    cases w.sizes t.output with
    | some osz =>
      by_cases he : isz = osz
      · simp [he]
      · by_cases hc : w.copyErr t.input t.output = true
        · simp [he, hc]
        · simp only [Bool.not_eq_true] at hc
          simp only [he, if_false, hc]
          rfl
    | none =>
      by_cases hc : w.copyErr t.input t.output = true
      · simp [hc]
      · simp only [Bool.not_eq_true] at hc
        simp only [hc]
        rfl

theorem runTasks_ignores_dirs (ts : List CopyTask) (w : World)
    (d : String → Bool) :
    runTasks { w with dirs := d } ts =
      ((runTasks w ts).1, { (runTasks w ts).2 with dirs := d }) := by
  induction ts generalizing w d with
  | nil => rfl
  | cons t ts ih =>
    rw [runTasks_cons, runTasks_cons, executeTask_ignores_dirs]
    dsimp only
    rw [ih]

/-- A task whose source exists and whose copy does not fault leaves both
its source and its destination at the source's size. -/
theorem executeTask_sync_both (w : World) (t : CopyTask) (s : Nat)
    (hs : w.sizes t.input = some s)
    (hc : w.copyErr t.input t.output = false) :
    ((executeTask w t).2).sizes t.input = some s ∧
    ((executeTask w t).2).sizes t.output = some s := by
  unfold executeTask
  rw [hs]
  cases ho : w.sizes t.output with
  | some osz =>
    dsimp only
    by_cases he : s = osz
    · subst he
      rw [if_pos rfl]
      exact ⟨hs, ho⟩
    · simp only [if_neg he, hc, Bool.false_eq_true, if_false]
      refine ⟨?_, by simp⟩
      by_cases hio : t.input = t.output
      · simp [hio]
      · simp [hio, hs]
  | none =>
    dsimp only
    simp only [hc, Bool.false_eq_true, if_false]
    refine ⟨?_, by simp⟩
    by_cases hio : t.input = t.output
    · simp [hio]
    · simp [hio, hs]

/-- After one pass over a task list with pairwise-distinct destinations,
destinations disjoint from sources and no copy faults, every task whose
source existed has source and destination at that same size. -/
theorem runTasks_establishes_sync (ts : List CopyTask) (w : World)
    (hnd : (ts.map CopyTask.output).Nodup)
    (hdisj : ∀ t1 ∈ ts, ∀ t2 ∈ ts, t1.output ≠ t2.input)
    (hcall : ∀ t ∈ ts, w.copyErr t.input t.output = false) :
    ∀ t ∈ ts, ∀ s, w.sizes t.input = some s →
      ((runTasks w ts).2).sizes t.input = some s ∧
      ((runTasks w ts).2).sizes t.output = some s := by
  induction ts generalizing w with
  | nil => intro t ht; exact absurd ht (List.not_mem_nil t)
  | cons u us ih =>
    intro t ht s hs
    rw [runTasks_cons]
    dsimp only
    rcases List.mem_cons.mp ht with rfl | htu
    · have hcu : w.copyErr t.input t.output = false :=
        hcall t (List.mem_cons_self _ _)
      have hboth := executeTask_sync_both w t s hs hcu
      constructor
      · rw [runTasks_sizes_ne us _ fun t2 ht2 =>
          (hdisj t2 (List.mem_cons_of_mem _ ht2) t
            (List.mem_cons_self _ _)).symm]
        exact hboth.1
      · rw [runTasks_sizes_ne us _ ?_]
        · exact hboth.2
        · intro t2 ht2 heq
          exact (List.nodup_cons.mp hnd).1
            (heq ▸ List.mem_map_of_mem CopyTask.output ht2)
    · have hpres : ((executeTask w u).2).sizes t.input = some s := by
        rw [executeTask_sizes_ne w u
          (hdisj u (List.mem_cons_self _ _) t ht).symm]
        exact hs
      refine ih (executeTask w u).2 (List.nodup_cons.mp hnd).2
        (fun t1 ht1 t2 ht2 => hdisj t1 (List.mem_cons_of_mem _ ht1) t2
          (List.mem_cons_of_mem _ ht2))
        (fun t2 ht2 => ?_) t htu s hpres
      rw [executeTask_copyErr]
      exact hcall t2 (List.mem_cons_of_mem _ ht2)

/-- On a machine where every task's destination already matches its
source, a pass performs no copy: existing sources are skipped, missing
sources fail, and the machine is unchanged. -/
theorem runTasks_synced (ts : List CopyTask) (w : World)
    (hsync : ∀ t ∈ ts, ∀ s, w.sizes t.input = some s →
      w.sizes t.output = some s) :
    runTasks w ts =
      (ts.map fun t => if (w.sizes t.input).isSome then Outcome.skipped
        else Outcome.failed, w) := by
  induction ts with
  | nil => rfl
  | cons u us ih =>
    rw [runTasks_cons]
    have hu : executeTask w u =
        ((if (w.sizes u.input).isSome then Outcome.skipped
          else Outcome.failed), w) := by
      unfold executeTask
      cases hs : w.sizes u.input with
      | none => simp
      | some s =>
        rw [hsync u (List.mem_cons_self _ _) s hs]
        simp
    rw [hu]
    dsimp only
    rw [ih fun t2 ht2 => hsync t2 (List.mem_cons_of_mem _ ht2),
      List.map_cons]

/-! ## Record- and pass-level lemmas -/

theorem planFails_of_mkdirErr_false (w : World) (argv : Arguments)
    (b : Book) (h : w.mkdirErr (outputPath argv b) = false) :
    planFails w argv b = false := by
  unfold planFails
  rw [h]
  simp

theorem processBook_not_fail (w : World) (argv : Arguments) (b : Book)
    (h : planFails w argv b = false) :
    processBook w argv b =
      ((successMsg b,
        (runTasks (ensureDir w (outputPath argv b)) (tasksOf argv b)).1),
       (runTasks (ensureDir w (outputPath argv b)) (tasksOf argv b)).2) := by
  unfold processBook
  rw [h]
  rfl

theorem processBook_fail (w : World) (argv : Arguments) (b : Book)
    (h : planFails w argv b = true) :
    processBook w argv b = ((errMsg b, []), w) := by
  unfold processBook
  rw [h]
  rfl

theorem processBook_mkdirErr (w : World) (argv : Arguments) (b : Book) :
    ((processBook w argv b).2).mkdirErr = w.mkdirErr := by
  unfold processBook
  split
  · rfl
  · dsimp only
    rw [runTasks_mkdirErr, ensureDir_mkdirErr]

theorem processBook_copyErr (w : World) (argv : Arguments) (b : Book) :
    ((processBook w argv b).2).copyErr = w.copyErr := by
  unfold processBook
  split
  · rfl
  · dsimp only
    rw [runTasks_copyErr, ensureDir_copyErr]

theorem processBook_dirs_mono (w : World) (argv : Arguments) (b : Book)
    (p : String) (h : w.dirs p = true) :
    ((processBook w argv b).2).dirs p = true := by
  unfold processBook
  split
  · exact h
  · dsimp only
    rw [runTasks_dirs]
    exact ensureDir_dirs_mono _ _ _ h

theorem processBook_dirs_out (w : World) (argv : Arguments) (b : Book)
    (h : planFails w argv b = false) :
    ((processBook w argv b).2).dirs (outputPath argv b) = true := by
  rw [processBook_not_fail w argv b h]
  dsimp only
  rw [runTasks_dirs]
  exact ensureDir_dirs_self _ _

theorem processBooks_cons (w : World) (argv : Arguments) (b : Book)
    (bs : List Book) :
    processBooks w argv (b :: bs) =
      ((processBook w argv b).1 ::
        (processBooks (processBook w argv b).2 argv bs).1,
       (processBooks (processBook w argv b).2 argv bs).2) := rfl

theorem processBooks_append (w : World) (argv : Arguments)
    (l1 l2 : List Book) :
    processBooks w argv (l1 ++ l2) =
      ((processBooks w argv l1).1 ++
        (processBooks (processBooks w argv l1).2 argv l2).1,
       (processBooks (processBooks w argv l1).2 argv l2).2) := by
  induction l1 generalizing w with
  | nil => rfl
  | cons b l1 ih =>
    rw [List.cons_append, processBooks_cons, processBooks_cons, ih]
    rfl

theorem processBooks_mkdirErr (argv : Arguments) (books : List Book) :
    ∀ w : World, ((processBooks w argv books).2).mkdirErr = w.mkdirErr := by
  induction books with
  | nil => intro w; rfl
  | cons b bs ih =>
    intro w
    rw [processBooks_cons]
    dsimp only
    rw [ih, processBook_mkdirErr]

theorem processBooks_copyErr (argv : Arguments) (books : List Book) :
    ∀ w : World, ((processBooks w argv books).2).copyErr = w.copyErr := by
  induction books with
  | nil => intro w; rfl
  | cons b bs ih =>
    intro w
    rw [processBooks_cons]
    dsimp only
    rw [ih, processBook_copyErr]

theorem processBooks_dirs_mono (argv : Arguments) (books : List Book)
    (p : String) :
    ∀ w : World, w.dirs p = true →
      ((processBooks w argv books).2).dirs p = true := by
  induction books with
  | nil => intro w h; exact h
  | cons b bs ih =>
    intro w h
    rw [processBooks_cons]
    dsimp only
    exact ih _ (processBook_dirs_mono w argv b p h)

theorem processBooks_dirs_out (argv : Arguments) (books : List Book) :
    ∀ w : World, (∀ b ∈ books, w.mkdirErr (outputPath argv b) = false) →
      ∀ b ∈ books,
        ((processBooks w argv books).2).dirs (outputPath argv b) = true := by
  induction books with
  | nil => intro w _ b hb; exact absurd hb (List.not_mem_nil b)
  | cons b0 bs ih =>
    intro w hplan b hb
    rw [processBooks_cons]
    dsimp only
    rcases List.mem_cons.mp hb with rfl | hbs
    · apply processBooks_dirs_mono
      exact processBook_dirs_out w argv b
        (planFails_of_mkdirErr_false w argv b
          (hplan b (List.mem_cons_self _ _)))
    · refine ih _ (fun b2 hb2 => ?_) b hbs
      rw [processBook_mkdirErr]
      exact hplan b2 (List.mem_cons_of_mem _ hb2)

/-- The size evolution of a task list run is independent of a preceding
directory creation. -/
theorem runTasks_ensureDir_then (w : World) (p : String)
    (tb ts : List CopyTask) (q : String) :
    ((runTasks (runTasks (ensureDir w p) tb).2 ts).2).sizes q =
      ((runTasks (runTasks w tb).2 ts).2).sizes q := by
  unfold ensureDir
  split
  · rfl
  · rw [show addDir w p =
        { w with dirs := fun r => if r = p then true else w.dirs r }
      from rfl,
      runTasks_ignores_dirs tb w fun r => if r = p then true else w.dirs r]
    dsimp only
    rw [runTasks_ignores_dirs ts ((runTasks w tb).2)
      fun r => if r = p then true else w.dirs r]

/-- A full pass evolves the size map exactly as running all planned tasks
in record order does. -/
theorem processBooks_sizes_eq (argv : Arguments) (books : List Book) :
    ∀ w : World, (∀ b ∈ books, w.mkdirErr (outputPath argv b) = false) →
    ∀ q, ((processBooks w argv books).2).sizes q =
      ((runTasks w (allTasks argv books)).2).sizes q := by
  induction books with
  | nil => intro w _ q; rfl
  | cons b bs ih =>
    intro w hplan q
    rw [processBooks_cons]
    dsimp only
    rw [processBook_not_fail w argv b
      (planFails_of_mkdirErr_false w argv b
        (hplan b (List.mem_cons_self _ _)))]
    dsimp only
    have hplan2 : ∀ b2 ∈ bs,
        ((runTasks (ensureDir w (outputPath argv b))
          (tasksOf argv b)).2).mkdirErr (outputPath argv b2) = false := by
      intro b2 hb2
      rw [runTasks_mkdirErr, ensureDir_mkdirErr]
      exact hplan b2 (List.mem_cons_of_mem _ hb2)
    rw [ih _ hplan2 q,
      show allTasks argv (b :: bs) = tasksOf argv b ++ allTasks argv bs
        from rfl,
      runTasks_append]
    dsimp only
    exact runTasks_ensureDir_then w _ _ _ q

/-- After one faultless pass with distinct destinations disjoint from the
sources, every planned task with an existing source has source and
destination at that size. -/
theorem processBooks_establishes_sync (w : World) (argv : Arguments)
    (books : List Book)
    (hplan : ∀ b ∈ books, w.mkdirErr (outputPath argv b) = false)
    (hnd : ((allTasks argv books).map CopyTask.output).Nodup)
    (hdisj : ∀ t1 ∈ allTasks argv books, ∀ t2 ∈ allTasks argv books,
      t1.output ≠ t2.input)
    (hcall : ∀ t ∈ allTasks argv books,
      w.copyErr t.input t.output = false) :
    ∀ t ∈ allTasks argv books, ∀ s, w.sizes t.input = some s →
      ((processBooks w argv books).2).sizes t.input = some s ∧
      ((processBooks w argv books).2).sizes t.output = some s := by
  intro t ht s hs
  rw [processBooks_sizes_eq argv books w hplan,
    processBooks_sizes_eq argv books w hplan]
  exact runTasks_establishes_sync (allTasks argv books) w hnd hdisj hcall
    t ht s hs

/-- A pass over a machine whose output directories exist and whose
destinations already match their sources changes nothing and skips every
task with an existing source. -/
theorem processBooks_all_skip (w : World) (argv : Arguments)
    (books : List Book)
    (hdirs : ∀ b ∈ books, w.dirs (outputPath argv b) = true)
    (hsync : ∀ t ∈ allTasks argv books, ∀ s,
      w.sizes t.input = some s → w.sizes t.output = some s) :
    processBooks w argv books =
      (books.map fun b => (successMsg b, (tasksOf argv b).map
        fun t => if (w.sizes t.input).isSome then Outcome.skipped
          else Outcome.failed), w) := by
  induction books with
  | nil => rfl
  | cons b bs ih =>
    rw [processBooks_cons]
    have hpf : planFails w argv b = false := by
      unfold planFails
      rw [hdirs b (List.mem_cons_self _ _)]
      rfl
    rw [processBook_not_fail w argv b hpf]
    have hed : ensureDir w (outputPath argv b) = w := by
      unfold ensureDir
      rw [if_pos (hdirs b (List.mem_cons_self _ _))]
    rw [hed, runTasks_synced (tasksOf argv b) w fun t ht =>
      hsync t (show t ∈ allTasks argv (b :: bs) from
        List.mem_append_left _ ht)]
    dsimp only
    rw [ih (fun b2 hb2 => hdirs b2 (List.mem_cons_of_mem _ hb2))
      (fun t ht => hsync t (show t ∈ allTasks argv (b :: bs) from
        List.mem_append_right _ ht)), List.map_cons]

end Watcher

namespace Watcher

/-! ## Claim theorems -/

/-- C1 counterexample.  Template `{author}/{title_short}` against a record
whose fields are stored in the order `title_short`, `author` resolves to
`T/A`: the code substitutes the values in record storage order (app.ts
lines 94-100), not by each occurrence's own name, which would give `A/T`.
This refutes the claim's "regardless of the order in which the record's
fields are stored". -/
theorem c1_counterexample :
    resolve "{author}/{title_short}".toList
        [("title_short".toList, JValue.str "T".toList),
         ("author".toList, JValue.str "A".toList)] = "T/A".toList ∧
    resolveSpec "{author}/{title_short}".toList
        [("title_short".toList, JValue.str "T".toList),
         ("author".toList, JValue.str "A".toList)] = "A/T".toList ∧
    resolve "{author}/{title_short}".toList
        [("title_short".toList, JValue.str "T".toList),
         ("author".toList, JValue.str "A".toList)] ≠
      resolveSpec "{author}/{title_short}".toList
        [("title_short".toList, JValue.str "T".toList),
         ("author".toList, JValue.str "A".toList)] := by
  refine ⟨by decide, by decide, by decide⟩

/-- C1, amended.  For a template whose literal text is free of `%` (the
embedding of `replaceAll` plus `util.format` is exact there) and whose
placeholder names, read left to right, are exactly the record's keys that
occur among them in the record's own storage order — so in particular the
names are distinct, each is a field of the record, and template order
agrees with storage order — the engine substitutes each occurrence with
the string form of the field of that occurrence's own name, preserving
literal text and order. -/
theorem c1_substitution_by_name (t : List Char) (r : RecFields)
    (_hpf : '%' ∉ t)
    (hord : (r.map Prod.fst).filter
        (fun k => decide (k ∈ holesOf (scanT t))) = holesOf (scanT t)) :
    resolve t r = resolveSpec t r := by
  unfold resolve resolveSpec valuesFor
  rw [hord]
  exact fill_holesOf_map _ _

/-- C1 witness: a record whose storage order matches the template. -/
theorem c1_substitution_by_name_witness :
    resolve "{author}/{title_short}".toList
        [("author".toList, JValue.str "A".toList),
         ("title_short".toList, JValue.str "T".toList)] =
      resolveSpec "{author}/{title_short}".toList
        [("author".toList, JValue.str "A".toList),
         ("title_short".toList, JValue.str "T".toList)] :=
  c1_substitution_by_name _ _ (by decide) (by decide)

/-- C2 counterexample.  Template `{nonexistent_field}/{title_short}`
against a record lacking `nonexistent_field` resolves to `T/%s`, not to
`undefined/T`: the missing name contributes no value (the code filters
`Object.keys(book)` by the requested names, app.ts 94-96), so the present
field's value shifts into the first slot and the last `%s` is left as
literal text by `util.format`.  The first segment is not `"undefined"`,
and the other placeholder's substitution is affected. -/
theorem c2_counterexample :
    resolve "{nonexistent_field}/{title_short}".toList
        [("title_short".toList, JValue.str "T".toList)] = "T/%s".toList ∧
    resolve "{nonexistent_field}/{title_short}".toList
        [("title_short".toList, JValue.str "T".toList)] ≠
      "undefined/T".toList := by
  refine ⟨by decide, by decide⟩

/-- C2, amended.  Resolution of a template naming a missing field still
never fails, but instead of an `"undefined"` marker the values of the
present fields are shifted left into the earliest placeholder slots and
every slot left without a value remains as the literal text `%s`: for any
record with distinct keys that lacks `nonexistent_field` and has
`title_short`, the template `{nonexistent_field}/{title_short}` resolves
to the `title_short` value followed by `/%s`. -/
theorem c2_missing_field (r : RecFields) (v : JValue)
    (hnd : (r.map Prod.fst).Nodup)
    (habs : "nonexistent_field".toList ∉ r.map Prod.fst)
    (hts : lookupField r "title_short".toList = some v) :
    resolve "{nonexistent_field}/{title_short}".toList r =
      jstr v ++ "/%s".toList := by
  have hchunks : scanT "{nonexistent_field}/{title_short}".toList =
      [Chunk.hole "nonexistent_field".toList, Chunk.lit '/',
       Chunk.hole "title_short".toList] := by decide
  have hmem : "title_short".toList ∈ r.map Prod.fst := lookupField_mem hts
  unfold resolve valuesFor
  rw [hchunks]
  have hholes : holesOf
      [Chunk.hole "nonexistent_field".toList, Chunk.lit '/',
       Chunk.hole "title_short".toList] =
      ["nonexistent_field".toList, "title_short".toList] := by decide
  rw [hholes]
  have hcongr : (r.map Prod.fst).filter
      (fun k => decide (k ∈ ["nonexistent_field".toList,
        "title_short".toList])) =
      (r.map Prod.fst).filter (fun k => decide (k = "title_short".toList)) := by
    apply List.filter_congr
    intro k hk
    have hknf : k ≠ "nonexistent_field".toList := by
      intro hkn
      exact habs (hkn ▸ hk)
    apply decide_eq_decide.mpr
    simp only [List.mem_cons, List.mem_singleton, List.not_mem_nil, or_false]
    constructor
    · intro h
      rcases h with h | h
      · exact absurd h hknf
      · exact h
    · intro h
      exact Or.inr h
  rw [hcongr, filter_eq_single hnd hmem]
  simp only [List.map_cons, List.map_nil]
  rw [hts]
  rfl

/-- C2 witness: the concrete record with only `title_short`. -/
theorem c2_missing_field_witness :
    resolve "{nonexistent_field}/{title_short}".toList
        [("title_short".toList, JValue.str "T".toList)] =
      jstr (JValue.str "T".toList) ++ "/%s".toList :=
  c2_missing_field _ _ (by decide) (by decide) (by decide)

/-- C3.  For a copy task whose source exists (size `isz`) and at which the
copy operation does not fault: a missing destination is copied, an
equal-sized destination is skipped with the machine unchanged (sizes only —
contents are never compared), an unequal-sized destination is overwritten;
in every case the destination's final size equals the source's size. -/
theorem c3_copy_policy (w : World) (t : CopyTask) (isz : Nat)
    (hs : w.sizes t.input = some isz)
    (hc : w.copyErr t.input t.output = false) :
    executeTask w t =
      (if w.sizes t.output = some isz then (Outcome.skipped, w)
       else (Outcome.copied, setSize w t.output isz)) ∧
    ((executeTask w t).2).sizes t.output = some isz := by
  have hmain : executeTask w t =
      (if w.sizes t.output = some isz then (Outcome.skipped, w)
       else (Outcome.copied, setSize w t.output isz)) := by
    unfold executeTask
    rw [hs]
    cases ho : w.sizes t.output with
    | none => simp [hc]
    | some osz =>
      by_cases he : isz = osz
      · subst he
        simp
      · have hne : ¬ (some osz = some isz) := by
          simp [Ne.symm he]
        simp [he, hc, hne]
  refine ⟨hmain, ?_⟩
  rw [hmain]
  by_cases ho : w.sizes t.output = some isz
  · simp [ho]
  · simp [ho, setSize]

/-- C3 witness: copying the 5-byte source to a missing destination. -/
theorem c3_copy_policy_witness :
    (executeTask exW3 exT3).1 = Outcome.copied ∧
    ((executeTask exW3 exT3).2).sizes exT3.output = some 5 := by
  have h := c3_copy_policy exW3 exT3 5 rfl rfl
  refine ⟨?_, h.2⟩
  rw [h.1]
  rfl

/-- C4.  A manifest parse failure raised during a watch-triggered pass
propagates out of the handler `watchThis` unchanged: neither `ProcessBooks`
(app.ts 170-178) nor the handler (app.ts 213-221) contains a try/catch, so
the pass does not merely abort — under Node's default unhandled-rejection
policy the escaped error terminates the watching process, contradicting
the claim that the loop returns to Idle. -/
theorem c4_parse_error_escapes_handler (w : World) (argv : Arguments)
    (e : String) :
    watchThisHandler w argv (Except.error e) = Except.error e := rfl

/-- C5 counterexample.  Two change signals delivered while the first pass
is still running leave two passes running at once: the dispatch of
app.ts 213-222 starts a pass per delivered event and tracks no in-flight
or pending state, so the claim's "no second pass is started concurrently"
is false, and no follow-up pass is queued for after completion. -/
theorem c5_counterexample :
    (watchRun watchStart [WEv.change, WEv.change]).running = 2 ∧
    ¬ (watchRun watchStart [WEv.change, WEv.change]).running ≤ 1 := by
  exact ⟨rfl, by decide⟩

/-- C5, amended.  Every change signal delivered by the watcher immediately
starts one more Manifest Processor pass, regardless of how many passes are
already running: signals arriving during a pass yield concurrently running
passes and are never collapsed into a queued follow-up pass. -/
theorem c5_pass_per_event (s : WatchSt) :
    (watchStep s WEv.change).running = s.running + 1 ∧
    (watchStep s WEv.change).started = s.started + 1 :=
  ⟨rfl, rfl⟩

theorem debRun_append (s : DebSt) (l1 l2 : List DEv) :
    debRun s (l1 ++ l2) = debRun (debRun s l1) l2 := by
  induction l1 generalizing s with
  | nil => rfl
  | cons e l1 ih =>
    rw [List.cons_append]
    exact ih (debStep s e)

/-- C6.  In the part_002 event loop, any burst of `n ≥ 1` change signals
arriving while the loop is idle (no timer pending, no pass running)
schedules the debounce timer exactly once, and when the timer fires
exactly one Manifest Processor pass has been started — not one per
signal. -/
theorem c6_debounce_coalesce (n : Nat) (h : 1 ≤ n) :
    (debRun debIdle (List.replicate n DEv.change ++ [DEv.fire])).passes
      = 1 := by
  obtain ⟨m, rfl⟩ : ∃ m, n = m + 1 := ⟨n - 1, by omega⟩
  have hfix : ∀ k,
      debRun ⟨true, false, 0⟩ (List.replicate k DEv.change) =
        ⟨true, false, 0⟩ := by
    intro k
    induction k with
    | zero => rfl
    | succ k ih =>
      rw [List.replicate_succ]
      show debRun (debStep ⟨true, false, 0⟩ DEv.change)
          (List.replicate k DEv.change) = _
      rw [show debStep ⟨true, false, 0⟩ DEv.change = ⟨true, false, 0⟩
        from rfl]
      exact ih
  rw [List.replicate_succ, List.cons_append]
  show (debRun (debStep debIdle DEv.change)
      (List.replicate m DEv.change ++ [DEv.fire])).passes = 1
  rw [show debStep debIdle DEv.change = ⟨true, false, 0⟩ from rfl,
    debRun_append, hfix m]
  rfl

/-- C6 witness: three rapid change signals, one pass. -/
theorem c6_debounce_coalesce_witness :
    (debRun debIdle (List.replicate 3 DEv.change ++ [DEv.fire])).passes
      = 1 :=
  c6_debounce_coalesce 3 (by decide)

/-- C7 counterexample.  A record with two audio files `a/x.mp3` (1 byte)
and `b/x.mp3` (2 bytes) plans both copies onto the same destination
`out/X/x.mp3` (`path.basename` discards the differing directories).
After a completed first run both sources still exist, yet the second run
copies both files again instead of skipping them: the claim fails whenever
two tasks share a destination. -/
theorem c7_counterexample :
    ((processBooks exW7 exArgvA [exB7]).2).sizes "in/books/a/x.mp3"
      = some 1 ∧
    ((processBooks exW7 exArgvA [exB7]).2).sizes "in/books/b/x.mp3"
      = some 2 ∧
    (processBooks (processBooks exW7 exArgvA [exB7]).2 exArgvA [exB7]).1 =
      [(successMsg exB7, [Outcome.copied, Outcome.copied])] := by
  refine ⟨by decide, by decide, by decide⟩

/-- C7, amended.  Provided the pass's planned copy tasks have pairwise
distinct destination paths, no destination coincides with any source
path, and directory creation and the copies themselves do not fault:
running the Manifest Processor twice in succession on the same manifest
with sources unchanged leaves the second run with the machine (and so
every destination file size) unchanged, every record reporting success,
every task with an existing source `skipped` and every task with a
missing source `failed` again. -/
theorem c7_second_run_skips (w : World) (argv : Arguments)
    (books : List Book)
    (hplan : ∀ b ∈ books, w.mkdirErr (outputPath argv b) = false)
    (hnd : ((allTasks argv books).map CopyTask.output).Nodup)
    (hdisj : ∀ t1 ∈ allTasks argv books, ∀ t2 ∈ allTasks argv books,
      t1.output ≠ t2.input)
    (hcall : ∀ t ∈ allTasks argv books,
      w.copyErr t.input t.output = false) :
    processBooks (processBooks w argv books).2 argv books =
      (books.map fun b => (successMsg b, (tasksOf argv b).map
        fun t => if (((processBooks w argv books).2).sizes t.input).isSome
          then Outcome.skipped else Outcome.failed),
       (processBooks w argv books).2) := by
  have hdirs1 : ∀ b ∈ books,
      ((processBooks w argv books).2).dirs (outputPath argv b) = true :=
    processBooks_dirs_out argv books w hplan
  have hsync1 : ∀ t ∈ allTasks argv books, ∀ s,
      ((processBooks w argv books).2).sizes t.input = some s →
      ((processBooks w argv books).2).sizes t.output = some s := by
    intro t ht s hs1
    have hsrc : ((processBooks w argv books).2).sizes t.input
        = w.sizes t.input := by
      rw [processBooks_sizes_eq argv books w hplan]
      exact runTasks_sizes_ne (allTasks argv books) w
        fun t2 ht2 => (hdisj t2 ht2 t ht).symm
    rw [hsrc] at hs1
    exact (processBooks_establishes_sync w argv books hplan hnd hdisj
      hcall t ht s hs1).2
  exact processBooks_all_skip _ argv books hdirs1 hsync1

/-- C7 witness: a single record, single file, faultless machine. -/
theorem c7_second_run_skips_witness :
    processBooks (processBooks exW7w exArgvA [exB7w]).2 exArgvA [exB7w] =
      ([exB7w].map fun b => (successMsg b, (tasksOf exArgvA b).map
        fun t => if (((processBooks exW7w exArgvA [exB7w]).2).sizes
            t.input).isSome then Outcome.skipped else Outcome.failed),
       (processBooks exW7w exArgvA [exB7w]).2) :=
  c7_second_run_skips exW7w exArgvA [exB7w] (by decide) (by decide)
    (by decide) (by decide)

/-- C8.  A record with two audio files of which the first source is
absent and the second is intact still reaches a terminal outcome for
every task: one `failed` and one `copied` or `skipped`, and the record
still reports its aggregate summary message instead of crashing — the
per-task log line (the `failed` outcome) carries the partial-failure
information. -/
theorem c8_task_isolated (w : World) (argv : Arguments) (b : Book)
    (f1 f2 : BFile) (hfiles : b.files = [f1, f2])
    (hk1 : f1.kind = "audio") (hk2 : f2.kind = "audio")
    (hplan : planFails w argv b = false)
    (hmiss : w.sizes (srcPath argv f1) = none)
    (hhit : (w.sizes (srcPath argv f2)).isSome = true)
    (hcf : w.copyErr (srcPath argv f2) (dstPath argv b f2) = false) :
    ((processBook w argv b).1).1 = successMsg b ∧
    (((processBook w argv b).1).2 = [Outcome.failed, Outcome.copied] ∨
     ((processBook w argv b).1).2 = [Outcome.failed, Outcome.skipped]) := by
  have htasks : tasksOf argv b =
      [⟨srcPath argv f1, dstPath argv b f1⟩,
       ⟨srcPath argv f2, dstPath argv b f2⟩] := by
    unfold tasksOf
    rw [hfiles]
    simp [hk1, hk2, srcPath, dstPath]
  rw [processBook_not_fail w argv b hplan, htasks]
  refine ⟨rfl, ?_⟩
  dsimp only
  rw [runTasks_cons]
  have h1 : executeTask (ensureDir w (outputPath argv b))
      ⟨srcPath argv f1, dstPath argv b f1⟩ =
      (Outcome.failed, ensureDir w (outputPath argv b)) := by
    unfold executeTask
    dsimp only
    rw [ensureDir_sizes, hmiss]
  rw [h1]
  dsimp only
  rw [runTasks_cons]
  obtain ⟨n, hn⟩ := Option.isSome_iff_exists.mp hhit
  have hs2 : (ensureDir w (outputPath argv b)).sizes (srcPath argv f2)
      = some n := by
    rw [ensureDir_sizes]
    exact hn
  have hc2 : (ensureDir w (outputPath argv b)).copyErr
      (srcPath argv f2) (dstPath argv b f2) = false := by
    rw [ensureDir_copyErr]
    exact hcf
  cases hd : (ensureDir w (outputPath argv b)).sizes (dstPath argv b f2)
    with
  | none =>
    have h2 : executeTask (ensureDir w (outputPath argv b))
        ⟨srcPath argv f2, dstPath argv b f2⟩ =
        (Outcome.copied, setSize (ensureDir w (outputPath argv b))
          (dstPath argv b f2) n) := by
      unfold executeTask
      dsimp only
      rw [hs2, hd, hc2]
      simp
    rw [h2]
    exact Or.inl rfl
  | some m =>
    by_cases he : n = m
    · have h2 : executeTask (ensureDir w (outputPath argv b))
          ⟨srcPath argv f2, dstPath argv b f2⟩ =
          (Outcome.skipped, ensureDir w (outputPath argv b)) := by
        unfold executeTask
        dsimp only
        rw [hs2, hd]
        dsimp only
        rw [if_pos he]
      rw [h2]
      exact Or.inr rfl
    · have h2 : executeTask (ensureDir w (outputPath argv b))
          ⟨srcPath argv f2, dstPath argv b f2⟩ =
          (Outcome.copied, setSize (ensureDir w (outputPath argv b))
            (dstPath argv b f2) n) := by
        unfold executeTask
        dsimp only
        rw [hs2, hd]
        dsimp only
        rw [if_neg he, hc2]
        simp
      rw [h2]
      exact Or.inl rfl

/-- C8 witness: `m1.mp3` missing, `m2.mp3` present and copied. -/
theorem c8_task_isolated_witness :
    ((processBook exW8 exArgvA exB8).1).1 = successMsg exB8 ∧
    (((processBook exW8 exArgvA exB8).1).2 =
        [Outcome.failed, Outcome.copied] ∨
     ((processBook exW8 exArgvA exB8).1).2 =
        [Outcome.failed, Outcome.skipped]) :=
  c8_task_isolated exW8 exArgvA exB8 ⟨"m1.mp3", "audio"⟩
    ⟨"m2.mp3", "audio"⟩ rfl rfl rfl (by decide) (by decide) (by decide)
    (by decide)

/-- C9.  A record whose planning step throws (here: `mkdirSync` faulting
on its output directory) contributes exactly the caught failure summary
produced by the per-record catch, leaves the machine untouched, and every
sibling record before and after it is processed exactly as it would be
with the failing record absent. -/
theorem c9_record_exception_contained (w : World) (argv : Arguments)
    (l1 : List Book) (b : Book) (l2 : List Book)
    (hfail : planFails ((processBooks w argv l1).2) argv b = true) :
    processBooks w argv (l1 ++ b :: l2) =
      ((processBooks w argv l1).1 ++ ((errMsg b, []) ::
          (processBooks ((processBooks w argv l1).2) argv l2).1),
       (processBooks ((processBooks w argv l1).2) argv l2).2) := by
  rw [processBooks_append, processBooks_cons,
    processBook_fail _ _ _ hfail]

/-- C9 witness: `mkdirSync` faults at `out/Z`; the sibling record is
still processed. -/
theorem c9_record_exception_contained_witness :
    processBooks exW9 exArgvA ([] ++ exB9 :: [exB9s]) =
      ((processBooks exW9 exArgvA []).1 ++ ((errMsg exB9, []) ::
          (processBooks ((processBooks exW9 exArgvA []).2) exArgvA
            [exB9s]).1),
       (processBooks ((processBooks exW9 exArgvA []).2) exArgvA
         [exB9s]).2) :=
  c9_record_exception_contained exW9 exArgvA [] exB9 [exB9s] (by decide)

/-- C10.  Whenever the planning steps do not throw, `ProcessBook` fulfills
with the success summary — task outcomes, including failures, never reach
the returned record summary (they are only logged); and the function never
rejects, planning failures being converted to the error summary. -/
theorem c10_summary_hides_task_failures (w : World) (argv : Arguments)
    (b : Book) (hok : planFails w argv b = false) :
    ((processBook w argv b).1).1 = successMsg b := by
  rw [processBook_not_fail w argv b hok]

/-- C10 witness: the record's only copy task fails (missing source), yet
the summary is the success message. -/
theorem c10_summary_hides_task_failures_witness :
    planFails exW10 exArgvA exB10 = false ∧
    ((processBook exW10 exArgvA exB10).1).2 = [Outcome.failed] ∧
    ((processBook exW10 exArgvA exB10).1).1 = successMsg exB10 :=
  ⟨by decide, by decide,
   c10_summary_hides_task_failures exW10 exArgvA exB10 (by decide)⟩

end Watcher
